import Mathlib

/-
Verification of the portfolio state-transition and valuation engine of
src/main.py (microcap-adapted).  The Python program is shallowly embedded:
Python dicts become association lists (insertion-ordered, new keys appended,
exactly like a Python dict), Python numbers become exact rationals for money
and integers for share counts, Python exceptions become Option results, and
the trading-decisions JSON file becomes an inductive describing the cases the
program distinguishes (missing file, empty content, JSON decode error, parsed
but structurally invalid, parsed record).
-/

set_option maxRecDepth 4000

abbrev Symb := String

/-- Symbol universe fixed in main (src/main.py line 219). -/
def SYMBOLS : List Symb := ["GEVO", "FEIM", "ARQ", "UPXI", "SERV", "MYOMO", "CABA"]

/-- Python dict lookup: d.get(k) / `k in d` plus `d[k]`. -/
def dictGet {α : Type} : List (Symb × α) → Symb → Option α
  | [], _ => none
  | (k0, v0) :: rest, k => if k = k0 then some v0 else dictGet rest k

/-- Python d.get(k, dflt). -/
def dictGetD {α : Type} (m : List (Symb × α)) (k : Symb) (d : α) : α :=
  (dictGet m k).getD d

/-- Python dict assignment d[k] = v: update an existing key in place, append a new one. -/
def dictSet {α : Type} : List (Symb × α) → Symb → α → List (Symb × α)
  | [], k, v => [(k, v)]
  | (k0, v0) :: rest, k, v =>
      if k = k0 then (k0, v) :: rest else (k0, v0) :: dictSet rest k v

/-- Keys of a dict, in insertion order. -/
def dictKeys {α : Type} (m : List (Symb × α)) : List Symb :=
  m.map Prod.fst

/-- Python int() on a nonnegative-or-negative rational: truncation toward zero
(src/main.py line 189 applies it to a positive quotient). -/
def pyInt (q : ℚ) : ℤ :=
  if 0 ≤ q then ⌊q⌋ else -⌊-q⌋

/-- Left-pad a digit string with zeros to width n. -/
def padZeros (s : String) (n : ℕ) : String :=
  if n ≤ s.length then s else String.mk (List.replicate (n - s.length) '0') ++ s

/-- Round to the nearest integer, ties to even, as Python float formatting does
on exactly representable values. -/
def roundHalfEven (q : ℚ) : ℤ :=
  let f := ⌊q⌋
  if q - f < 1/2 then f
  else if q - f > 1/2 then f + 1
  else if f % 2 = 0 then f else f + 1

/-- Python fixed-point formatting f"\x7bx:.nf\x7d" on an exact rational. -/
def formatFixed (q : ℚ) (n : ℕ) : String :=
  let m := roundHalfEven (q * (10 : ℚ) ^ n)
  let a := m.natAbs
  (if m < 0 then "-" else "") ++ toString (a / 10 ^ n) ++ "." ++ padZeros (toString (a % 10 ^ n)) n

/-- Share-count dict: symbol to integer share count (holdings.json). -/
abbrev Holdings := List (Symb × ℤ)

/-- Price dict: symbol to price, only fetched symbols present. -/
abbrev Prices := List (Symb × ℚ)

/-- Action message of a SELL_ALL execution (src/main.py line 169). -/
def sellMsg (s : Symb) (qty : ℤ) (p : ℚ) (proceeds : ℚ) : String :=
  "SELL ALL " ++ s ++ ": " ++ toString qty ++ " shares @ $" ++ formatFixed p 4 ++
    " = $" ++ formatFixed proceeds 2

/-- Action message of a TRIM_TO execution (src/main.py line 181). -/
def trimMsg (s : Symb) (t : ℤ) (proceeds : ℚ) : String :=
  "TRIM " ++ s ++ " to " ++ toString t ++ " shares - $" ++ formatFixed proceeds 2 ++ " proceeds"

/-- Action message of a BUY_NEW execution (src/main.py line 194). -/
def buyMsg (s : Symb) (shares : ℤ) (p : ℚ) (cost : ℚ) : String :=
  "BUY " ++ s ++ ": " ++ toString shares ++ " shares @ $" ++ formatFixed p 4 ++
    " = $" ++ formatFixed cost 2

/-- One order object of the execution_queue JSON: every field may be absent,
reading an absent mandatory field raises KeyError in Python. -/
structure RawOrder where
  symbol : Option Symb := none
  action : Option String := none
  target_quantity : Option ℤ := none
  target_value : Option ℚ := none
  current_quantity : Option ℤ := none
deriving DecidableEq

/-- Execution of one order of the queue (src/main.py lines 158-199).
Returns none when Python would raise (missing "symbol", "action", or, on a
TRIM_TO order, missing "target_quantity"); otherwise the updated holdings,
updated cash and the action message appended (none for a no-op, HOLD, or an
unknown action tag). -/
def stepOrder (prices : Prices) (holdings : Holdings) (cash : ℚ) (o : RawOrder) :
    Option (Holdings × ℚ × Option String) :=
  match o.symbol, o.action with
  | some symbol, some act =>
    if act = "SELL_ALL" then
      match dictGet holdings symbol with
      | some q =>
        if q > 0 then
          match dictGet prices symbol with
          | some p =>
            let proceeds := (q : ℚ) * p
            some (dictSet holdings symbol 0, cash + proceeds, some (sellMsg symbol q p proceeds))
          | none => some (holdings, cash, none)
        else some (holdings, cash, none)
      | none => some (holdings, cash, none)
    else if act = "TRIM_TO" then
      match o.target_quantity with
      | none => none
      | some t =>
        match dictGet holdings symbol with
        | some q =>
          if q > t then
            match dictGet prices symbol with
            | some p =>
              let proceeds := ((q - t : ℤ) : ℚ) * p
              some (dictSet holdings symbol t, cash + proceeds, some (trimMsg symbol t proceeds))
            | none => some (holdings, cash, none)
          else some (holdings, cash, none)
        | none => some (holdings, cash, none)
    else if act = "BUY_NEW" then
      let tv := o.target_value.getD 0
      if tv > 0 ∧ tv ≤ cash then
        match dictGet prices symbol with
        | some p =>
          if p > 0 then
            let shares := pyInt (tv / p)
            let cost := (shares : ℚ) * p
            if cost ≤ cash then
              some (dictSet holdings symbol (dictGetD holdings symbol 0 + shares),
                    cash - cost, some (buyMsg symbol shares p cost))
            else some (holdings, cash, none)
          else some (holdings, cash, none)
        | none => some (holdings, cash, none)
      else some (holdings, cash, none)
    else some (holdings, cash, none)
  | _, _ => none

/-- The for-loop over the execution_queue: threads holdings, cash and the
claude_actions accumulator through the orders; the Bool is true when no
exception occurred, false when the loop aborted (leaving the partial state). -/
def runQueue (prices : Prices) : List RawOrder → Holdings → ℚ → List String →
    Holdings × ℚ × List String × Bool
  | [], h, c, acts => (h, c, acts, true)
  | o :: rest, h, c, acts =>
    match stepOrder prices h c o with
    | none => (h, c, acts, false)
    | some (h', c', msg) => runQueue prices rest h' c' (acts ++ msg.toList)

/-- Parsed trading_decisions.json record. -/
structure QueueRecord where
  execution_queue : List RawOrder
  claude_decisions_executed : Bool
  execution_date : Option String
deriving DecidableEq

/-- State of the trading_decisions.json file as the program distinguishes it:
missing (FileNotFoundError), empty content (early return), JSON decode error,
parsed but structurally invalid (generic exception while reading the record),
or a parsed record. -/
inductive QueueFile
  | missing
  | emptyContent
  | badJson
  | badStructure
  | parsed (r : QueueRecord)
deriving DecidableEq

/-- execute_trading_decisions (src/main.py lines 141-216): consumes the queue
file against current prices, returning (holdings, claude_actions, cash) as the
Python function does, together with the resulting state of the queue file
(rewritten with the queue emptied and the executed marker set only when a
parsed, non-empty queue was processed to the end without an exception). -/
def execute_trading_decisions (holdings : Holdings) (prices : Prices) (date : String)
    (cash : ℚ) (qf : QueueFile) : Holdings × List String × ℚ × QueueFile :=
  match qf with
  | .parsed r =>
    if r.execution_queue.isEmpty then (holdings, [], cash, qf)
    else
      match runQueue prices r.execution_queue holdings cash [] with
      | (h', c', acts, ok) =>
        if ok then (h', acts, c', .parsed ⟨[], true, some date⟩)
        else (h', acts, c', qf)
  | _ => (holdings, [], cash, qf)

/-- Per-symbol contribution to the total value in main (src/main.py lines 314-321):
counted only when the symbol is in holdings, in prices, and held quantity is
positive. -/
def heldValue (holdings : Holdings) (prices : Prices) (s : Symb) : ℚ :=
  match dictGet holdings s, dictGet prices s with
  | some q, some p => if q > 0 then (q : ℚ) * p else 0
  | _, _ => 0

/-- total_value as computed in main (src/main.py lines 311-322): cash plus the
held values over the SYMBOLS universe. -/
def computeTotalValue (holdings : Holdings) (prices : Prices) (cash : ℚ) : ℚ :=
  cash + (SYMBOLS.map (heldValue holdings prices)).sum

/-- Output snapshot docs/latest.json (src/main.py lines 336-346), restricted to
the fields the claims are about. -/
structure PortfolioData where
  date : String
  cash : String
  total_value : String
  prices : Prices
  quantities : Holdings
  actions : Option String
  claude_decisions_executed : Bool

/-- Assembly of the output snapshot in main (src/main.py lines 336-346):
prices and quantities filtered to held symbols, two-decimal money strings,
actions field set to claude_actions[0] when the list is non-empty. -/
def buildPortfolioData (date : String) (holdings : Holdings) (prices : Prices)
    (cash : ℚ) (claude_actions : List String) : PortfolioData :=
  { date := date
    cash := formatFixed cash 2
    total_value := formatFixed (computeTotalValue holdings prices cash) 2
    prices := prices.filter fun kv => decide (0 < dictGetD holdings kv.1 0)
    quantities := holdings.filter fun kv => decide (0 < kv.2)
    actions := claude_actions.head?
    claude_decisions_executed := !claude_actions.isEmpty }

/-- One row of data/portfolio_history.csv as read back by pandas: a price or
quantity cell is absent when the column is missing or the cell is NaN. -/
structure HistoryRow where
  priceCell : List (Symb × ℚ)
  qtyCell : List (Symb × ℤ)
  total_value : ℚ
deriving DecidableEq

/-- Data of the previous snapshot as returned by get_previous_day_data
(src/main.py lines 130-134). -/
structure PrevData where
  prices : List (Symb × ℚ)
  quantities : List (Symb × ℤ)
  total_value : ℚ
deriving DecidableEq

/-- Extraction of prices and quantities from the chosen history row
(src/main.py lines 116-134): a symbol is included when its price cell is
present (notna) and its quantity is positive. -/
def extractPrevRow (r : HistoryRow) : PrevData :=
  { prices := SYMBOLS.filterMap fun s =>
      match dictGet r.priceCell s, dictGet r.qtyCell s with
      | some p, some q => if q > 0 then some (s, p) else none
      | _, _ => none
    quantities := SYMBOLS.filterMap fun s =>
      match dictGet r.priceCell s, dictGet r.qtyCell s with
      | some _, some q => if q > 0 then some (s, q) else none
      | _, _ => none
    total_value := r.total_value }

/-- Default row used only to satisfy totality of list indexing; every use is
guarded by a length check, exactly like the pandas iloc accesses. -/
def dummyRow : HistoryRow := ⟨[], [], 0⟩

/-- get_previous_day_data (src/main.py lines 98-139): none when the history
file is missing or unreadable (modelled as history = none) or has no rows;
the second-to-last row when at least two rows exist; the single row otherwise. -/
def get_previous_day_data (history : Option (List HistoryRow)) : Option PrevData :=
  match history with
  | none => none
  | some rows =>
    if rows.length < 1 then none
    else if 2 ≤ rows.length then some (extractPrevRow (rows.getD (rows.length - 2) dummyRow))
    else some (extractPrevRow (rows.getD (rows.length - 1) dummyRow))

/-- current_data as assembled in main (src/main.py lines 327-332). -/
structure CurrentData where
  prices : List (Symb × ℚ)
  quantities : List (Symb × ℤ)
  total_value : ℚ
deriving DecidableEq

/-- Assembly of current_data in main (src/main.py lines 327-332): prices kept
for held symbols, quantities kept when positive. -/
def buildCurrentData (holdings : Holdings) (prices : Prices) (total : ℚ) : CurrentData :=
  { prices := prices.filter fun kv => decide (0 < dictGetD holdings kv.1 0)
    quantities := holdings.filter fun kv => decide (0 < kv.2)
    total_value := total }

/-- Per-symbol entry of the delta report (src/main.py lines 78-82). -/
structure SymbolChange where
  price_change : ℚ
  price_change_pct : ℚ
  value_change : ℚ
deriving DecidableEq

/-- Delta report (src/main.py lines 90-96). -/
structure DailyChanges where
  individual : List (Symb × SymbolChange)
  total_change : ℚ
  total_change_pct : ℚ
deriving DecidableEq

/-- calculate_daily_changes (src/main.py lines 63-96): none without a previous
snapshot; otherwise per-symbol changes for symbols present in both price maps
(in main the current price keys are always current quantity keys, so the
quantity lookup never falls back to its default) and portfolio-level changes
guarded against division by a non-positive previous total. -/
def calculate_daily_changes (current : CurrentData) (previous : Option PrevData) :
    Option DailyChanges :=
  match previous with
  | none => none
  | some prev =>
    let individual := current.prices.filterMap fun kv =>
      match dictGet prev.prices kv.1 with
      | none => none
      | some pp =>
        let pc := kv.2 - pp
        let cq : ℤ := dictGetD current.quantities kv.1 0
        some (kv.1,
          { price_change := pc
            price_change_pct := if pp > 0 then pc / pp * 100 else 0
            value_change := pc * (cq : ℚ) })
    let ct := current.total_value
    let pt := prev.total_value
    some { individual := individual
           total_change := ct - pt
           total_change_pct := if pt > 0 then (ct - pt) / pt * 100 else 0 }

/-- Order literal of a SELL_ALL instruction. -/
def mkSell (s : Symb) : RawOrder :=
  { symbol := some s, action := some "SELL_ALL" }

/-- Order literal of a TRIM_TO instruction carrying its target quantity. -/
def mkTrim (s : Symb) (t : ℤ) : RawOrder :=
  { symbol := some s, action := some "TRIM_TO", target_quantity := some t }

/-- Order literal of a BUY_NEW instruction carrying its target value. -/
def mkBuy (s : Symb) (tv : ℚ) : RawOrder :=
  { symbol := some s, action := some "BUY_NEW", target_value := some tv }

theorem roundHalfEven_intCast (m : ℤ) : roundHalfEven (m : ℚ) = m := by
  simp [roundHalfEven]

theorem formatFixed_eq_of (q : ℚ) (n : ℕ) (m : ℤ) (h : q * 10 ^ n = (m : ℚ)) :
    formatFixed q n =
      (if m < 0 then "-" else "") ++ toString (m.natAbs / 10 ^ n) ++ "." ++
        padZeros (toString (m.natAbs % 10 ^ n)) n := by
  unfold formatFixed
  rw [h, roundHalfEven_intCast]

theorem pyInt_eq_floor (q : ℚ) (h : 0 ≤ q) : pyInt q = ⌊q⌋ := by
  simp [pyInt, h]

theorem dictGet_dictSet {α : Type} (m : List (Symb × α)) (k k' : Symb) (v : α) :
    dictGet (dictSet m k v) k' = if k' = k then some v else dictGet m k' := by
  induction m with
  | nil => simp [dictGet, dictSet]
  | cons kv rest ih =>
    obtain ⟨k0, v0⟩ := kv
    by_cases hk : k = k0
    · subst hk
      by_cases hk' : k' = k <;> simp [dictSet, dictGet, hk']
    · by_cases hk' : k' = k0
      · subst hk'
        simp [dictSet, dictGet, hk, Ne.symm hk]
      · simp [dictSet, dictGet, hk, hk', ih]

theorem mem_of_dictGet_some {α : Type} {m : List (Symb × α)} {s : Symb} {v : α}
    (h : dictGet m s = some v) : (s, v) ∈ m := by
  induction m with
  | nil => simp [dictGet] at h
  | cons kv rest ih =>
    obtain ⟨k0, v0⟩ := kv
    by_cases hk : s = k0
    · subst hk
      simp [dictGet] at h
      simp [h]
    · simp [dictGet, hk] at h
      simp [ih h]

theorem dictGet_eq_none_of_not_mem {α : Type} {m : List (Symb × α)} {s : Symb}
    (h : s ∉ dictKeys m) : dictGet m s = none := by
  induction m with
  | nil => simp [dictGet]
  | cons kv rest ih =>
    simp [dictKeys] at h
    push_neg at h
    simp [dictGet, h.1, ih (by simp [dictKeys, h.2])]

theorem mem_keys_of_dictGet_some {α : Type} {m : List (Symb × α)} {s : Symb} {v : α}
    (h : dictGet m s = some v) : s ∈ dictKeys m := by
  have := mem_of_dictGet_some h
  simp [dictKeys]
  exact ⟨v, this⟩

theorem dictGet_of_mem_nodup {α : Type} {m : List (Symb × α)} {s : Symb} {v : α}
    (hnd : (dictKeys m).Nodup) (h : (s, v) ∈ m) : dictGet m s = some v := by
  induction m with
  | nil => simp at h
  | cons kv rest ih =>
    obtain ⟨k0, v0⟩ := kv
    have hnd' : (∀ x : α, (k0, x) ∉ rest) ∧ (dictKeys rest).Nodup := by
      simpa [dictKeys] using hnd
    rcases List.mem_cons.mp h with h1 | h1
    · simp only [Prod.ext_iff] at h1
      obtain ⟨hs, hv⟩ := h1
      subst hs; subst hv
      simp [dictGet]
    · have hs : s ≠ k0 := by
        intro hs
        subst hs
        exact hnd'.1 v h1
      simp [dictGet, hs, ih hnd'.2 h1]

theorem mem_dictSet {α : Type} {m : List (Symb × α)} {k : Symb} {v : α} {kv : Symb × α}
    (h : kv ∈ dictSet m k v) : kv = (k, v) ∨ kv ∈ m := by
  induction m with
  | nil => simpa [dictSet] using h
  | cons kv0 rest ih =>
    obtain ⟨k0, v0⟩ := kv0
    by_cases hk : k = k0
    · subst hk
      simp [dictSet] at h
      rcases h with h | h
      · exact Or.inl (by simp [h])
      · exact Or.inr (by simp [h])
    · simp [dictSet, hk] at h
      rcases h with h | h
      · exact Or.inr (by simp [h])
      · rcases ih h with h1 | h1
        · exact Or.inl h1
        · exact Or.inr (by simp [h1])

theorem runQueue_acc (prices : Prices) (l : List RawOrder) (h : Holdings) (c : ℚ)
    (acts : List String) :
    runQueue prices l h c acts =
      ((runQueue prices l h c []).1, (runQueue prices l h c []).2.1,
        acts ++ (runQueue prices l h c []).2.2.1, (runQueue prices l h c []).2.2.2) := by
  induction l generalizing h c acts with
  | nil => simp [runQueue]
  | cons o rest ih =>
    simp only [runQueue]
    cases hstep : stepOrder prices h c o with
    | none => simp
    | some r =>
      obtain ⟨h', c', msg⟩ := r
      dsimp only
      rw [ih h' c' (acts ++ msg.toList), ih h' c' ([] ++ msg.toList)]
      simp

theorem runQueue_append (prices : Prices) (l1 l2 : List RawOrder) (h : Holdings) (c : ℚ)
    (acts : List String) :
    runQueue prices (l1 ++ l2) h c acts =
      (if (runQueue prices l1 h c acts).2.2.2 then
        runQueue prices l2 (runQueue prices l1 h c acts).1 (runQueue prices l1 h c acts).2.1
          (runQueue prices l1 h c acts).2.2.1
      else runQueue prices l1 h c acts) := by
  induction l1 generalizing h c acts with
  | nil => simp [runQueue]
  | cons o rest ih =>
    simp only [List.cons_append, runQueue]
    cases hstep : stepOrder prices h c o with
    | none => simp
    | some r =>
      obtain ⟨h', c', msg⟩ := r
      exact ih h' c' (acts ++ msg.toList)

theorem stepOrder_nonneg (prices : Prices) (holdings : Holdings) (cash : ℚ) (o : RawOrder)
    (h' : Holdings) (c' : ℚ) (msg : Option String)
    (hp : ∀ kv ∈ prices, (0 : ℚ) ≤ kv.2)
    (hh : ∀ kv ∈ holdings, (0 : ℤ) ≤ kv.2)
    (hc : 0 ≤ cash)
    (ht : ∀ t, o.target_quantity = some t → 0 ≤ t)
    (hstep : stepOrder prices holdings cash o = some (h', c', msg)) :
    (∀ kv ∈ h', (0 : ℤ) ≤ kv.2) ∧ 0 ≤ c' := by
  unfold stepOrder at hstep
  cases hsym : o.symbol with
  | none => rw [hsym] at hstep; cases hstep
  | some s =>
  cases hact : o.action with
  | none => rw [hsym, hact] at hstep; cases hstep
  | some a =>
  rw [hsym, hact] at hstep
  dsimp only at hstep
  by_cases hsell : a = "SELL_ALL"
  · rw [if_pos hsell] at hstep
    cases hq : dictGet holdings s with
    | none =>
      rw [hq] at hstep
      simp only [Option.some.injEq, Prod.mk.injEq] at hstep
      obtain ⟨e1, e2, e3⟩ := hstep
      subst e1; subst e2
      exact ⟨hh, hc⟩
    | some q =>
      rw [hq] at hstep
      dsimp only at hstep
      by_cases hq0 : q > 0
      · rw [if_pos hq0] at hstep
        cases hpr : dictGet prices s with
        | none =>
          rw [hpr] at hstep
          simp only [Option.some.injEq, Prod.mk.injEq] at hstep
          obtain ⟨e1, e2, e3⟩ := hstep
          subst e1; subst e2
          exact ⟨hh, hc⟩
        | some p =>
          rw [hpr] at hstep
          simp only [Option.some.injEq, Prod.mk.injEq] at hstep
          obtain ⟨e1, e2, e3⟩ := hstep
          subst e1; subst e2
          refine ⟨fun kv hkv => ?_, ?_⟩
          · rcases mem_dictSet hkv with h1 | h1
            · simp [h1]
            · exact hh kv h1
          · have hp0 : 0 ≤ p := hp (s, p) (mem_of_dictGet_some hpr)
            have hqp : (0 : ℚ) ≤ (q : ℚ) * p :=
              mul_nonneg (by exact_mod_cast le_of_lt hq0) hp0
            linarith
      · rw [if_neg hq0] at hstep
        simp only [Option.some.injEq, Prod.mk.injEq] at hstep
        obtain ⟨e1, e2, e3⟩ := hstep
        subst e1; subst e2
        exact ⟨hh, hc⟩
  · rw [if_neg hsell] at hstep
    by_cases htrim : a = "TRIM_TO"
    · rw [if_pos htrim] at hstep
      cases htq : o.target_quantity with
      | none => rw [htq] at hstep; cases hstep
      | some t =>
        rw [htq] at hstep
        dsimp only at hstep
        have ht0 : 0 ≤ t := ht t htq
        cases hq : dictGet holdings s with
        | none =>
          rw [hq] at hstep
          simp only [Option.some.injEq, Prod.mk.injEq] at hstep
          obtain ⟨e1, e2, e3⟩ := hstep
          subst e1; subst e2
          exact ⟨hh, hc⟩
        | some q =>
          rw [hq] at hstep
          dsimp only at hstep
          by_cases hqt : q > t
          · rw [if_pos hqt] at hstep
            cases hpr : dictGet prices s with
            | none =>
              rw [hpr] at hstep
              simp only [Option.some.injEq, Prod.mk.injEq] at hstep
              obtain ⟨e1, e2, e3⟩ := hstep
              subst e1; subst e2
              exact ⟨hh, hc⟩
            | some p =>
              rw [hpr] at hstep
              simp only [Option.some.injEq, Prod.mk.injEq] at hstep
              obtain ⟨e1, e2, e3⟩ := hstep
              subst e1; subst e2
              refine ⟨fun kv hkv => ?_, ?_⟩
              · rcases mem_dictSet hkv with h1 | h1
                · simp [h1, ht0]
                · exact hh kv h1
              · have hp0 : 0 ≤ p := hp (s, p) (mem_of_dictGet_some hpr)
                have hqt' : (0 : ℚ) ≤ ((q - t : ℤ) : ℚ) := by
                  exact_mod_cast Int.sub_nonneg.mpr (le_of_lt hqt)
                have hqp : (0 : ℚ) ≤ ((q - t : ℤ) : ℚ) * p := mul_nonneg hqt' hp0
                linarith
          · rw [if_neg hqt] at hstep
            simp only [Option.some.injEq, Prod.mk.injEq] at hstep
            obtain ⟨e1, e2, e3⟩ := hstep
            subst e1; subst e2
            exact ⟨hh, hc⟩
    · rw [if_neg htrim] at hstep
      by_cases hbuy : a = "BUY_NEW"
      · rw [if_pos hbuy] at hstep
        by_cases hguard : o.target_value.getD 0 > 0 ∧ o.target_value.getD 0 ≤ cash
        · rw [if_pos hguard] at hstep
          cases hpr : dictGet prices s with
          | none =>
            rw [hpr] at hstep
            simp only [Option.some.injEq, Prod.mk.injEq] at hstep
            obtain ⟨e1, e2, e3⟩ := hstep
            subst e1; subst e2
            exact ⟨hh, hc⟩
          | some p =>
            rw [hpr] at hstep
            dsimp only at hstep
            by_cases hp0 : p > 0
            · rw [if_pos hp0] at hstep
              by_cases hcost : (pyInt (o.target_value.getD 0 / p) : ℚ) * p ≤ cash
              · rw [if_pos hcost] at hstep
                simp only [Option.some.injEq, Prod.mk.injEq] at hstep
                obtain ⟨e1, e2, e3⟩ := hstep
                subst e1; subst e2
                refine ⟨fun kv hkv => ?_, by linarith⟩
                rcases mem_dictSet hkv with h1 | h1
                · have hsh : 0 ≤ pyInt (o.target_value.getD 0 / p) := by
                    rw [pyInt_eq_floor _ (div_nonneg (le_of_lt hguard.1) (le_of_lt hp0))]
                    exact Int.floor_nonneg.mpr (div_nonneg (le_of_lt hguard.1) (le_of_lt hp0))
                  have hprior : 0 ≤ dictGetD holdings s 0 := by
                    unfold dictGetD
                    cases hg : dictGet holdings s with
                    | none => simp
                    | some q => simpa using hh (s, q) (mem_of_dictGet_some hg)
                  simp only [h1]
                  exact add_nonneg hprior hsh
                · exact hh kv h1
              · rw [if_neg hcost] at hstep
                simp only [Option.some.injEq, Prod.mk.injEq] at hstep
                obtain ⟨e1, e2, e3⟩ := hstep
                subst e1; subst e2
                exact ⟨hh, hc⟩
            · rw [if_neg hp0] at hstep
              simp only [Option.some.injEq, Prod.mk.injEq] at hstep
              obtain ⟨e1, e2, e3⟩ := hstep
              subst e1; subst e2
              exact ⟨hh, hc⟩
        · rw [if_neg hguard] at hstep
          simp only [Option.some.injEq, Prod.mk.injEq] at hstep
          obtain ⟨e1, e2, e3⟩ := hstep
          subst e1; subst e2
          exact ⟨hh, hc⟩
      · rw [if_neg hbuy] at hstep
        simp only [Option.some.injEq, Prod.mk.injEq] at hstep
        obtain ⟨e1, e2, e3⟩ := hstep
        subst e1; subst e2
        exact ⟨hh, hc⟩

theorem runQueue_nonneg (prices : Prices) (orders : List RawOrder) (holdings : Holdings)
    (cash : ℚ) (acts : List String)
    (hp : ∀ kv ∈ prices, (0 : ℚ) ≤ kv.2)
    (hh : ∀ kv ∈ holdings, (0 : ℤ) ≤ kv.2)
    (hc : 0 ≤ cash)
    (ht : ∀ o ∈ orders, ∀ t, o.target_quantity = some t → 0 ≤ t) :
    (∀ kv ∈ (runQueue prices orders holdings cash acts).1, (0 : ℤ) ≤ kv.2) ∧
      0 ≤ (runQueue prices orders holdings cash acts).2.1 := by
  induction orders generalizing holdings cash acts with
  | nil => exact ⟨hh, hc⟩
  | cons o rest ih =>
    simp only [runQueue]
    cases hstep : stepOrder prices holdings cash o with
    | none => exact ⟨hh, hc⟩
    | some r =>
      obtain ⟨h', c', msg⟩ := r
      have hstep' := stepOrder_nonneg prices holdings cash o h' c' msg hp hh hc
        (fun t htq => ht o (List.mem_cons_self o rest) t htq) hstep
      exact ih h' c' (acts ++ msg.toList) hstep'.1 hstep'.2
        (fun o' ho' t htq => ht o' (List.mem_cons_of_mem o ho') t htq)

/-- Total held value as the specification words it (for comparison with the
value main computes): the sum over all holdings entries with positive quantity
and a known price of quantity times price. -/
def specSum (holdings : Holdings) (prices : Prices) : ℚ :=
  (holdings.map fun kv =>
    match dictGet prices kv.1 with
    | some p => if 0 < kv.2 then (kv.2 : ℚ) * p else 0
    | none => 0).sum

theorem heldValue_of_hold_none {holdings : Holdings} {prices : Prices} {s : Symb}
    (h : dictGet holdings s = none) : heldValue holdings prices s = 0 := by
  unfold heldValue
  rw [h]

theorem heldValue_of_price_none {holdings : Holdings} {prices : Prices} {s : Symb}
    (h : dictGet prices s = none) : heldValue holdings prices s = 0 := by
  unfold heldValue
  rw [h]
  cases dictGet holdings s <;> rfl

theorem totalValue_eq_specSum (holdings : Holdings) (prices : Prices)
    (hnd : (dictKeys holdings).Nodup)
    (hsub : ∀ s ∈ dictKeys prices, s ∈ SYMBOLS) :
    (SYMBOLS.map (heldValue holdings prices)).sum = specSum holdings prices := by
  classical
  have hSym : SYMBOLS.Nodup := by decide
  have hmap : (holdings.map fun kv =>
      match dictGet prices kv.1 with
      | some p => if 0 < kv.2 then (kv.2 : ℚ) * p else 0
      | none => 0) = holdings.map fun kv => heldValue holdings prices kv.1 := by
    apply List.map_congr_left
    intro kv hkv
    have hg : dictGet holdings kv.1 = some kv.2 := dictGet_of_mem_nodup hnd (by simpa using hkv)
    unfold heldValue
    rw [hg]
    cases dictGet prices kv.1 with
    | none => rfl
    | some p => simp [gt_iff_lt]
  have hright : specSum holdings prices =
      ((dictKeys holdings).map (heldValue holdings prices)).sum := by
    unfold specSum
    rw [hmap]
    unfold dictKeys
    rw [List.map_map]
    rfl
  rw [hright, ← List.sum_toFinset _ hSym, ← List.sum_toFinset _ hnd]
  have h1 : ∑ s ∈ SYMBOLS.toFinset, heldValue holdings prices s =
      ∑ s ∈ SYMBOLS.toFinset ∩ (dictKeys holdings).toFinset, heldValue holdings prices s := by
    refine (Finset.sum_subset Finset.inter_subset_left fun x hx hx' => ?_).symm
    have hxk : x ∉ dictKeys holdings := by
      intro hmem
      exact hx' (Finset.mem_inter.mpr ⟨hx, List.mem_toFinset.mpr hmem⟩)
    exact heldValue_of_hold_none (dictGet_eq_none_of_not_mem hxk)
  have h2 : ∑ s ∈ (dictKeys holdings).toFinset, heldValue holdings prices s =
      ∑ s ∈ SYMBOLS.toFinset ∩ (dictKeys holdings).toFinset, heldValue holdings prices s := by
    refine (Finset.sum_subset Finset.inter_subset_right fun x hx hx' => ?_).symm
    have hxS : x ∉ SYMBOLS := by
      intro hmem
      exact hx' (Finset.mem_inter.mpr ⟨List.mem_toFinset.mpr hmem, hx⟩)
    have hxp : x ∉ dictKeys prices := fun hmem => hxS (hsub x hmem)
    exact heldValue_of_price_none (dictGet_eq_none_of_not_mem hxp)
  rw [h1, h2]

/-- C1: Value conservation.  For every holdings dict (without duplicate keys,
as a Python dict), every price map covering only the fetched SYMBOLS universe,
and every cash value — hence for every state reachable by executing any order
sequence — the total value main computes and records in the persisted snapshot
equals cash plus the sum over all symbols s with holdings[s] > 0 and a known
price of holdings[s] * prices[s]. -/
theorem c1_value_conservation (holdings : Holdings) (prices : Prices) (cash : ℚ)
    (date : String) (acts : List String)
    (hnd : (dictKeys holdings).Nodup)
    (hsub : ∀ s ∈ dictKeys prices, s ∈ SYMBOLS) :
    computeTotalValue holdings prices cash = cash + specSum holdings prices ∧
      (buildPortfolioData date holdings prices cash acts).total_value =
        formatFixed (cash + specSum holdings prices) 2 := by
  have h := totalValue_eq_specSum holdings prices hnd hsub
  refine ⟨?_, ?_⟩
  · unfold computeTotalValue
    rw [h]
  · show formatFixed (computeTotalValue holdings prices cash) 2 = _
    unfold computeTotalValue
    rw [h]

/-- C1 witness: the conservation theorem applied to a concrete state. -/
theorem c1_value_conservation_witness :
    computeTotalValue [("GEVO", 199), ("FEIM", 10)] [("GEVO", 2)] 180 =
      180 + specSum [("GEVO", 199), ("FEIM", 10)] [("GEVO", 2)] ∧
      (buildPortfolioData "2025-09-01" [("GEVO", 199), ("FEIM", 10)] [("GEVO", 2)] 180
        []).total_value =
        formatFixed (180 + specSum [("GEVO", 199), ("FEIM", 10)] [("GEVO", 2)]) 2 :=
  c1_value_conservation [("GEVO", 199), ("FEIM", 10)] [("GEVO", 2)] 180 "2025-09-01" []
    (by decide) (by decide)

/-- C2 counterexample: the non-negativity claim quantifies over arbitrary order
sequences, but a TRIM_TO order carrying a negative target quantity (which the
engine accepts from the queue JSON unchecked) drives the held quantity
negative: holdings GEVO 2, cash 0, price GEVO 1, order TRIM_TO GEVO target -3
yields holdings GEVO -3. -/
theorem c2_counterexample :
    (runQueue [("GEVO", 1)] [mkTrim "GEVO" (-3)] [("GEVO", 2)] 0 []).1 = [("GEVO", -3)] ∧
      ((-3 : ℤ) < 0) := by
  refine ⟨?_, by decide⟩
  rfl

/-- C2 amended: for every starting holdings and cash that are non-negative,
every non-negative price map, and every order sequence whose TRIM_TO targets
are non-negative (the shape the spec data model gives orders), the resulting
cash is never negative and no resulting held quantity is negative; each
violating order is skipped whole by the guards, never partially applied. -/
theorem c2_nonneg_invariant (prices : Prices) (orders : List RawOrder) (holdings : Holdings)
    (cash : ℚ)
    (hp : ∀ kv ∈ prices, (0 : ℚ) ≤ kv.2)
    (hh : ∀ kv ∈ holdings, (0 : ℤ) ≤ kv.2)
    (hc : 0 ≤ cash)
    (ht : ∀ o ∈ orders, ∀ t, o.target_quantity = some t → 0 ≤ t) :
    0 ≤ (runQueue prices orders holdings cash []).2.1 ∧
      ∀ kv ∈ (runQueue prices orders holdings cash []).1, (0 : ℤ) ≤ kv.2 := by
  have h := runQueue_nonneg prices orders holdings cash [] hp hh hc ht
  exact ⟨h.2, h.1⟩

/-- C2 witness: the invariant at a concrete state and queue. -/
theorem c2_nonneg_invariant_witness :
    0 ≤ (runQueue [("GEVO", 1)] [mkSell "GEVO"] [("GEVO", 2)] 5 []).2.1 ∧
      ∀ kv ∈ (runQueue [("GEVO", 1)] [mkSell "GEVO"] [("GEVO", 2)] 5 []).1, (0 : ℤ) ≤ kv.2 :=
  c2_nonneg_invariant [("GEVO", 1)] [mkSell "GEVO"] [("GEVO", 2)] 5
    (by decide) (by decide) (by decide) (by decide)

theorem stepOrder_sell (prices : Prices) (holdings : Holdings) (cash : ℚ) (s : Symb) :
    stepOrder prices holdings cash (mkSell s) =
      match dictGet holdings s with
      | some q =>
        if q > 0 then
          match dictGet prices s with
          | some p => some (dictSet holdings s 0, cash + (q : ℚ) * p, some (sellMsg s q p ((q : ℚ) * p)))
          | none => some (holdings, cash, none)
        else some (holdings, cash, none)
      | none => some (holdings, cash, none) := by
  unfold stepOrder mkSell
  dsimp only
  rw [if_pos (rfl : "SELL_ALL" = "SELL_ALL")]

theorem stepOrder_trim (prices : Prices) (holdings : Holdings) (cash : ℚ) (s : Symb) (t : ℤ) :
    stepOrder prices holdings cash (mkTrim s t) =
      match dictGet holdings s with
      | some q =>
        if q > t then
          match dictGet prices s with
          | some p =>
            some (dictSet holdings s t, cash + ((q - t : ℤ) : ℚ) * p, some (trimMsg s t (((q - t : ℤ) : ℚ) * p)))
          | none => some (holdings, cash, none)
        else some (holdings, cash, none)
      | none => some (holdings, cash, none) := by
  unfold stepOrder mkTrim
  dsimp only
  rw [if_neg (by decide : ¬("TRIM_TO" = "SELL_ALL")), if_pos (rfl : "TRIM_TO" = "TRIM_TO")]

theorem stepOrder_buy (prices : Prices) (holdings : Holdings) (cash : ℚ) (s : Symb) (tv : ℚ) :
    stepOrder prices holdings cash (mkBuy s tv) =
      (if tv > 0 ∧ tv ≤ cash then
        match dictGet prices s with
        | some p =>
          if p > 0 then
            if (pyInt (tv / p) : ℚ) * p ≤ cash then
              some (dictSet holdings s (dictGetD holdings s 0 + pyInt (tv / p)),
                cash - (pyInt (tv / p) : ℚ) * p,
                some (buyMsg s (pyInt (tv / p)) p ((pyInt (tv / p) : ℚ) * p)))
            else some (holdings, cash, none)
          else some (holdings, cash, none)
        | none => some (holdings, cash, none)
      else some (holdings, cash, none)) := by
  unfold stepOrder mkBuy
  dsimp only
  rw [if_neg (by decide : ¬("BUY_NEW" = "SELL_ALL")),
    if_neg (by decide : ¬("BUY_NEW" = "TRIM_TO")),
    if_pos (rfl : "BUY_NEW" = "BUY_NEW")]
  simp only [Option.getD_some]

/-- C3: BUY_NEW semantics.  For every state with target_value > 0, a known
positive price p for the symbol and cash at least target_value, the engine
buys exactly floor(target_value / p) whole shares at cost shares * p, debiting
cash and crediting holdings, and the affordability check cost <= cash indeed
holds; moreover the two concrete scenarios of the claim: cash 1000, price
FEIM 50, BUY_NEW target 475 gives 9 shares at cost 450 leaving cash 550 and
holdings FEIM 9, and target 100 with cash 50 is a complete no-op. -/
theorem c3_buy_new (holdings : Holdings) (prices : Prices) (cash : ℚ) (s : Symb) (tv p : ℚ)
    (hpr : dictGet prices s = some p) (hp0 : 0 < p) (htv : 0 < tv) (hcash : tv ≤ cash) :
    (stepOrder prices holdings cash (mkBuy s tv) =
        some (dictSet holdings s (dictGetD holdings s 0 + ⌊tv / p⌋),
          cash - (⌊tv / p⌋ : ℚ) * p, some (buyMsg s ⌊tv / p⌋ p ((⌊tv / p⌋ : ℚ) * p))) ∧
      (⌊tv / p⌋ : ℚ) * p ≤ cash) ∧
    stepOrder [("FEIM", 50)] [] 1000 (mkBuy "FEIM" 475) =
      some ([("FEIM", 9)], 550, some (buyMsg "FEIM" 9 50 450)) ∧
    stepOrder [("FEIM", 50)] [] 50 (mkBuy "FEIM" 100) = some ([], 50, none) := by
  have hcost : (⌊tv / p⌋ : ℚ) * p ≤ cash := by
    have h1 : (⌊tv / p⌋ : ℚ) ≤ tv / p := Int.floor_le _
    have h2 : (⌊tv / p⌋ : ℚ) * p ≤ tv / p * p := mul_le_mul_of_nonneg_right h1 (le_of_lt hp0)
    rw [div_mul_cancel₀ tv (ne_of_gt hp0)] at h2
    exact le_trans h2 hcash
  have hguard : tv > 0 ∧ tv ≤ cash := ⟨htv, hcash⟩
  refine ⟨⟨?_, hcost⟩, ?_, ?_⟩
  · rw [stepOrder_buy, if_pos hguard, hpr]
    dsimp only
    rw [if_pos hp0, pyInt_eq_floor _ (div_nonneg (le_of_lt htv) (le_of_lt hp0)), if_pos hcost]
  · rw [stepOrder_buy]
    norm_num [dictGet, dictGetD, dictSet, pyInt]
  · rw [stepOrder_buy]
    norm_num

/-- C3 witness: the general BUY_NEW theorem applied at a concrete state. -/
theorem c3_buy_new_witness :
    (stepOrder [("ARQ", 2)] [("ARQ", 1)] 10 (mkBuy "ARQ" 5) =
        some (dictSet [("ARQ", 1)] "ARQ" (dictGetD [("ARQ", 1)] "ARQ" 0 + ⌊(5 : ℚ) / 2⌋),
          10 - (⌊(5 : ℚ) / 2⌋ : ℚ) * 2,
          some (buyMsg "ARQ" ⌊(5 : ℚ) / 2⌋ 2 ((⌊(5 : ℚ) / 2⌋ : ℚ) * 2))) ∧
      (⌊(5 : ℚ) / 2⌋ : ℚ) * 2 ≤ 10) ∧
    stepOrder [("FEIM", 50)] [] 1000 (mkBuy "FEIM" 475) =
      some ([("FEIM", 9)], 550, some (buyMsg "FEIM" 9 50 450)) ∧
    stepOrder [("FEIM", 50)] [] 50 (mkBuy "FEIM" 100) = some ([], 50, none) :=
  c3_buy_new [("ARQ", 1)] [("ARQ", 2)] 10 "ARQ" 5 2 rfl (by norm_num) (by norm_num) (by norm_num)

/-- C4: SELL_ALL semantics.  With a positive held quantity and a known price
the position is liquidated whole, the proceeds are credited and the matching
action string appended; with no positive held quantity, or a held position
without a known price, the order is a silent no-op; and the concrete scenario:
holdings GEVO 199, cash 180, price GEVO 1.50 gives holdings GEVO 0, cash
478.50 and the exact action string of the claim. -/
theorem c4_sell_all :
    (∀ (prices : Prices) (holdings : Holdings) (cash : ℚ) (s : Symb) (q : ℤ) (p : ℚ),
        dictGet holdings s = some q → 0 < q → dictGet prices s = some p →
        stepOrder prices holdings cash (mkSell s) =
          some (dictSet holdings s 0, cash + (q : ℚ) * p, some (sellMsg s q p ((q : ℚ) * p)))) ∧
    (∀ (prices : Prices) (holdings : Holdings) (cash : ℚ) (s : Symb),
        dictGetD holdings s 0 ≤ 0 →
        stepOrder prices holdings cash (mkSell s) = some (holdings, cash, none)) ∧
    (∀ (prices : Prices) (holdings : Holdings) (cash : ℚ) (s : Symb) (q : ℤ),
        dictGet holdings s = some q → 0 < q → dictGet prices s = none →
        stepOrder prices holdings cash (mkSell s) = some (holdings, cash, none)) ∧
    stepOrder [("GEVO", 1.5)] [("GEVO", 199)] 180 (mkSell "GEVO") =
      some ([("GEVO", 0)], 478.5, some "SELL ALL GEVO: 199 shares @ $1.5000 = $298.50") := by
  refine ⟨?_, ?_, ?_, ?_⟩
  · intro prices holdings cash s q p hq hq0 hpr
    rw [stepOrder_sell, hq]
    dsimp only
    rw [if_pos hq0, hpr]
  · intro prices holdings cash s hq
    rw [stepOrder_sell]
    cases hg : dictGet holdings s with
    | none => rfl
    | some q =>
      have hq0 : ¬q > 0 := by
        rw [dictGetD, hg] at hq
        simpa using hq
      dsimp only
      rw [if_neg hq0]
  · intro prices holdings cash s q hq hq0 hpr
    rw [stepOrder_sell, hq]
    dsimp only
    rw [if_pos hq0, hpr]
  · rw [stepOrder_sell]
    norm_num [dictGet, dictSet, sellMsg]
    rw [formatFixed_eq_of (3/2) 4 15000 (by norm_num),
      formatFixed_eq_of (597/2) 2 29850 (by norm_num)]
    decide

/-- C4 witness: the liquidation branch applied at a concrete state. -/
theorem c4_sell_all_witness :
    stepOrder [("ARQ", 2)] [("ARQ", 3)] 1 (mkSell "ARQ") =
      some (dictSet [("ARQ", 3)] "ARQ" 0, 1 + ((3 : ℤ) : ℚ) * 2,
        some (sellMsg "ARQ" 3 2 (((3 : ℤ) : ℚ) * 2))) :=
  c4_sell_all.1 [("ARQ", 2)] [("ARQ", 3)] 1 "ARQ" 3 2 rfl (by decide) rfl

/-- C10: a BUY_NEW order whose target value is affordable but below the share
price still executes: zero shares, zero cost, cash unchanged, the symbol
entered into holdings with its prior count (0 when previously absent), and an
action string reporting a purchase of 0 shares for $0.00 appended. -/
theorem c10_zero_share_buy (holdings : Holdings) (prices : Prices) (cash : ℚ) (s : Symb)
    (tv p : ℚ) (hpr : dictGet prices s = some p) (htv : 0 < tv) (hcash : tv ≤ cash)
    (hptv : tv < p) :
    stepOrder prices holdings cash (mkBuy s tv) =
      some (dictSet holdings s (dictGetD holdings s 0), cash,
        some ("BUY " ++ s ++ ": 0 shares @ $" ++ formatFixed p 4 ++ " = $0.00")) := by
  have hp0 : 0 < p := lt_trans htv hptv
  have hfl : ⌊tv / p⌋ = 0 := by
    rw [Int.floor_eq_zero_iff]
    constructor
    · exact div_nonneg (le_of_lt htv) (le_of_lt hp0)
    · exact (div_lt_one hp0).mpr hptv
  have hpy : pyInt (tv / p) = 0 := by
    rw [pyInt_eq_floor _ (div_nonneg (le_of_lt htv) (le_of_lt hp0)), hfl]
  have hcost0 : ((0 : ℤ) : ℚ) * p ≤ cash := by
    rw [Int.cast_zero, zero_mul]
    exact le_trans (le_of_lt htv) hcash
  rw [stepOrder_buy, if_pos (⟨htv, hcash⟩ : tv > 0 ∧ tv ≤ cash), hpr]
  dsimp only
  rw [if_pos hp0, hpy, if_pos hcost0]
  have e1 : dictGetD holdings s 0 + 0 = dictGetD holdings s 0 := add_zero _
  have e2 : cash - ((0 : ℤ) : ℚ) * p = cash := by
    rw [Int.cast_zero, zero_mul, sub_zero]
  have e3 : buyMsg s 0 p (((0 : ℤ) : ℚ) * p) =
      "BUY " ++ s ++ ": 0 shares @ $" ++ formatFixed p 4 ++ " = $0.00" := by
    unfold buyMsg
    rw [Int.cast_zero, zero_mul]
    rw [formatFixed_eq_of 0 2 0 (by norm_num)]
    rw [show ((if (0 : ℤ) < 0 then "-" else "") ++ toString (Int.natAbs 0 / 10 ^ 2) ++ "." ++
        padZeros (toString (Int.natAbs 0 % 10 ^ 2)) 2) = "0.00" from by decide]
    rw [show (toString (0 : ℤ)) = "0" from rfl]
    simp only [String.append_assoc]
    rw [show ((" = $" : String) ++ "0.00") = " = $0.00" from rfl]
    rw [← String.append_assoc (": ") "0", show ((": " : String) ++ "0") = ": 0" from rfl]
    rw [← String.append_assoc (": 0") " shares @ $",
      show ((": 0" : String) ++ " shares @ $") = ": 0 shares @ $" from rfl]
  rw [e1, e2, e3]

/-- C10 witness: the zero-share purchase at a concrete state. -/
theorem c10_zero_share_buy_witness :
    stepOrder [("SERV", 5)] [] 10 (mkBuy "SERV" 3) =
      some (dictSet [] "SERV" (dictGetD [] "SERV" 0), 10,
        some ("BUY " ++ "SERV" ++ ": 0 shares @ $" ++ formatFixed 5 4 ++ " = $0.00")) :=
  c10_zero_share_buy [] [("SERV", 5)] 10 "SERV" 3 5 rfl (by norm_num) (by norm_num) (by norm_num)

/-- C5 counterexample: a parsed queue record whose pending list is already
empty is returned by the early exit at src/main.py line 154 without being
rewritten: the executed flag stays false and no execution date is recorded,
contradicting the claim that the record is rewritten even for an empty pending
list. -/
theorem c5_counterexample :
    execute_trading_decisions [] [] "2025-01-02" 0 (.parsed ⟨[], false, none⟩) =
      ([], [], 0, .parsed ⟨[], false, none⟩) ∧
      (QueueRecord.mk [] false none).claude_decisions_executed = false := ⟨rfl, rfl⟩

/-- C5 amended: after processing a parsed queue whose pending list is
non-empty, when no order raises an exception the record is rewritten with the
pending list emptied, the executed flag set true and the run date recorded —
even when zero orders had an effect; an empty (or absent) pending list makes
the run return early, leaving the record untouched. -/
theorem c5_queue_rewrite (holdings : Holdings) (prices : Prices) (date : String) (cash : ℚ)
    (r : QueueRecord) (h' : Holdings) (c' : ℚ) (acts : List String)
    (hne : r.execution_queue ≠ [])
    (hrun : runQueue prices r.execution_queue holdings cash [] = (h', c', acts, true)) :
    execute_trading_decisions holdings prices date cash (.parsed r) =
      (h', acts, c', .parsed ⟨[], true, some date⟩) := by
  unfold execute_trading_decisions
  dsimp only
  have hne' : r.execution_queue.isEmpty = false := by
    cases hq : r.execution_queue with
    | nil => exact absurd hq hne
    | cons a l => rfl
  rw [hne', hrun]
  simp

/-- C5 witness: a single no-op order (selling a symbol that is not held)
executes zero effects yet the record is rewritten and marked executed. -/
theorem c5_queue_rewrite_witness :
    execute_trading_decisions [] [] "2025-01-02" 0 (.parsed ⟨[mkSell "GEVO"], false, none⟩) =
      ([], [], 0, .parsed ⟨[], true, some "2025-01-02"⟩) :=
  c5_queue_rewrite [] [] "2025-01-02" 0 ⟨[mkSell "GEVO"], false, none⟩ [] 0 []
    (by simp) rfl

/-- C6: a missing queue file, an empty one, one whose content fails JSON
decoding, and one that parses but has invalid structure all leave the run
with holdings and cash unchanged from their pre-execution values, an empty
action list, and the file untouched (the run continues rather than aborting;
the error is only logged). -/
theorem c6_malformed_queue (holdings : Holdings) (prices : Prices) (date : String) (cash : ℚ) :
    execute_trading_decisions holdings prices date cash .missing =
      (holdings, [], cash, .missing) ∧
    execute_trading_decisions holdings prices date cash .emptyContent =
      (holdings, [], cash, .emptyContent) ∧
    execute_trading_decisions holdings prices date cash .badJson =
      (holdings, [], cash, .badJson) ∧
    execute_trading_decisions holdings prices date cash .badStructure =
      (holdings, [], cash, .badStructure) :=
  ⟨rfl, rfl, rfl, rfl⟩

/-- C9: when an order in a non-empty queue raises (here: a missing mandatory
key makes the step fail), the effects of the orders executed before it are
retained in the returned holdings and cash, the orders after it are not
processed, and the queue file is left unmodified with its pending list
intact. -/
theorem c9_exception_keeps_partial_state (holdings : Holdings) (prices : Prices) (date : String)
    (cash : ℚ) (pre : List RawOrder) (o : RawOrder) (rest : List RawOrder)
    (e : Bool) (dt : Option String) (h' : Holdings) (c' : ℚ) (acts : List String)
    (hpre : runQueue prices pre holdings cash [] = (h', c', acts, true))
    (hfail : stepOrder prices h' c' o = none) :
    execute_trading_decisions holdings prices date cash (.parsed ⟨pre ++ o :: rest, e, dt⟩) =
      (h', acts, c', .parsed ⟨pre ++ o :: rest, e, dt⟩) := by
  have hrun2 : runQueue prices (pre ++ o :: rest) holdings cash [] = (h', c', acts, false) := by
    rw [runQueue_append, hpre]
    dsimp only
    simp only [runQueue, hfail]
    simp
  unfold execute_trading_decisions
  dsimp only
  have hne' : (pre ++ o :: rest).isEmpty = false := by
    cases pre <;> rfl
  rw [hne', hrun2]
  simp

/-- C9 witness: a SELL executes, then a TRIM_TO order missing its
target_quantity raises; the sale is kept, the third order is not processed
and the queue file is unchanged. -/
theorem c9_exception_keeps_partial_state_witness :
    execute_trading_decisions [("GEVO", 1)] [("GEVO", 2)] "2025-01-02" 0
        (.parsed ⟨[mkSell "GEVO"] ++
          { symbol := some "FEIM", action := some "TRIM_TO" } :: [mkSell "FEIM"], false, none⟩) =
      ([("GEVO", 0)], [sellMsg "GEVO" 1 2 (((1 : ℤ) : ℚ) * 2)], 0 + ((1 : ℤ) : ℚ) * 2,
        .parsed ⟨[mkSell "GEVO"] ++
          { symbol := some "FEIM", action := some "TRIM_TO" } :: [mkSell "FEIM"], false, none⟩) :=
  c9_exception_keeps_partial_state [("GEVO", 1)] [("GEVO", 2)] "2025-01-02" 0
    [mkSell "GEVO"] { symbol := some "FEIM", action := some "TRIM_TO" } [mkSell "FEIM"]
    false none [("GEVO", 0)] (0 + ((1 : ℤ) : ℚ) * 2) [sellMsg "GEVO" 1 2 (((1 : ℤ) : ℚ) * 2)]
    rfl rfl

/-- History row used in the C7 counterexample: one prior run holding 199 GEVO
at price 1 with total value 100. -/
def c7Row : HistoryRow := ⟨[("GEVO", 1)], [("GEVO", 199)], 100⟩

/-- Current run data used in the C7 counterexample: GEVO now at price 2,
total value 200. -/
def c7Current : CurrentData := ⟨[("GEVO", 2)], [("GEVO", 199)], 200⟩

/-- C7 counterexample: with exactly one history entry that entry is indeed
used as the previous snapshot, but the resulting delta report is not all
zeros: the history is read before the current row is appended, so the single
entry is the previous run, not the current one — price_change is 1 and
total_change is 100 here. -/
theorem c7_counterexample :
    get_previous_day_data (some [c7Row]) =
      some ⟨[("GEVO", 1)], [("GEVO", 199)], 100⟩ ∧
    calculate_daily_changes c7Current (get_previous_day_data (some [c7Row])) =
      some ⟨[("GEVO", ⟨1, 100, 199⟩)], 100, 100⟩ ∧
    (SymbolChange.mk 1 100 199).price_change ≠ 0 ∧
    (DailyChanges.mk [("GEVO", ⟨1, 100, 199⟩)] 100 100).total_change ≠ 0 := by
  have h1 : get_previous_day_data (some [c7Row]) =
      some ⟨[("GEVO", 1)], [("GEVO", 199)], 100⟩ := by decide
  refine ⟨h1, ?_, by decide, by decide⟩
  rw [h1]
  unfold calculate_daily_changes c7Current
  dsimp only
  simp only [List.filterMap, dictGet, dictGetD]
  norm_num

/-- C7 amended: previous-snapshot selection reads the historical sequence as
persisted before this run appends its own row: with at least two entries the
previous snapshot is the second-to-last; with exactly one entry that single
entry is used (the deltas are then all zero exactly when the current snapshot
agrees with that entry on prices and total, as in a self-comparison); with no
entries or an unreadable history the previous snapshot and the delta report
are absent. -/
theorem c7_prev_selection :
    (∀ rows : List HistoryRow, 2 ≤ rows.length →
        get_previous_day_data (some rows) =
          some (extractPrevRow (rows.getD (rows.length - 2) dummyRow))) ∧
    (∀ r : HistoryRow, get_previous_day_data (some [r]) = some (extractPrevRow r)) ∧
    get_previous_day_data none = none ∧
    get_previous_day_data (some []) = none ∧
    (∀ cur : CurrentData, calculate_daily_changes cur none = none) ∧
    (∀ (cur : CurrentData) (prev : PrevData),
        (∀ kv ∈ cur.prices, dictGet prev.prices kv.1 = some kv.2) →
        prev.total_value = cur.total_value →
        ∀ d, calculate_daily_changes cur (some prev) = some d →
          (∀ e ∈ d.individual,
            e.2.price_change = 0 ∧ e.2.price_change_pct = 0 ∧ e.2.value_change = 0) ∧
          d.total_change = 0 ∧ d.total_change_pct = 0) := by
  refine ⟨?_, ?_, rfl, rfl, fun _ => rfl, ?_⟩
  · intro rows h2
    unfold get_previous_day_data
    dsimp only
    rw [if_neg (by omega : ¬rows.length < 1), if_pos h2]
  · intro r
    rfl
  · intro cur prev hpr htot d hd
    unfold calculate_daily_changes at hd
    dsimp only at hd
    simp only [Option.some.injEq] at hd
    subst hd
    refine ⟨?_, ?_, ?_⟩
    · intro e he
      dsimp only at he
      rcases List.mem_filterMap.mp he with ⟨kv, hkv, hf⟩
      rw [hpr kv hkv] at hf
      dsimp only at hf
      simp only [sub_self, zero_div, zero_mul, ite_self, Option.some.injEq] at hf
      subst hf
      exact ⟨rfl, rfl, rfl⟩
    · dsimp only
      rw [htot, sub_self]
    · dsimp only
      rw [htot, sub_self]
      simp only [zero_div, zero_mul, ite_self]

/-- C7 witness: the second-to-last selection applied to a concrete two-entry
history. -/
theorem c7_prev_selection_witness :
    get_previous_day_data (some [c7Row, c7Row]) =
      some (extractPrevRow ([c7Row, c7Row].getD ([c7Row, c7Row].length - 2) dummyRow)) :=
  c7_prev_selection.1 [c7Row, c7Row] (by decide)

/-- Result tuple of the concrete two-order run used in the C8 counterexample:
both SELL_ALL orders execute, producing two action strings. -/
def c8Args : Holdings × List String × ℚ × QueueFile :=
  execute_trading_decisions [("GEVO", 1), ("FEIM", 1)] [("GEVO", 2), ("FEIM", 3)] "2025-01-02" 0
    (.parsed ⟨[mkSell "GEVO", mkSell "FEIM"], false, none⟩)

/-- C8 counterexample: in a run where two orders execute, the output snapshot
records the first action string (claude_actions[0]), not the most recent one:
the recorded action differs from the last element of the executed-action
list. -/
theorem c8_counterexample :
    c8Args.2.1 = [sellMsg "GEVO" 1 2 2, sellMsg "FEIM" 1 3 3] ∧
    (buildPortfolioData "2025-01-02" c8Args.1 [("GEVO", 2), ("FEIM", 3)] c8Args.2.2.1
        c8Args.2.1).actions = some (sellMsg "GEVO" 1 2 2) ∧
    c8Args.2.1.getLast? = some (sellMsg "FEIM" 1 3 3) ∧
    sellMsg "GEVO" 1 2 2 ≠ sellMsg "FEIM" 1 3 3 := by
  have hargs : c8Args =
      ([("GEVO", 0), ("FEIM", 0)],
        [sellMsg "GEVO" 1 2 (((1 : ℤ) : ℚ) * 2), sellMsg "FEIM" 1 3 (((1 : ℤ) : ℚ) * 3)],
        0 + ((1 : ℤ) : ℚ) * 2 + ((1 : ℤ) : ℚ) * 3,
        .parsed ⟨[], true, some "2025-01-02"⟩) := rfl
  have hmsg : (((1 : ℤ) : ℚ) * 2) = 2 ∧ (((1 : ℤ) : ℚ) * 3) = 3 := by norm_num
  have hne : sellMsg "GEVO" 1 2 2 ≠ sellMsg "FEIM" 1 3 3 := by
    unfold sellMsg
    rw [formatFixed_eq_of 2 4 20000 (by norm_num), formatFixed_eq_of 2 2 200 (by norm_num),
      formatFixed_eq_of 3 4 30000 (by norm_num), formatFixed_eq_of 3 2 300 (by norm_num)]
    decide
  refine ⟨?_, ?_, ?_, hne⟩
  · rw [hargs, hmsg.1, hmsg.2]
  · rw [hargs, hmsg.1]
    rfl
  · rw [hargs, hmsg.2]
    rfl

/-- C8 amended: action strings are accumulated in execution order (processing
a queue appends its action strings, in order, to the right of whatever was
accumulated before), and the output snapshot records the FIRST action string
of the run (claude_actions[0]) when at least one order executed — not the most
recent one — records no action when none executed, and carries a flag that is
true exactly when some action executed. -/
theorem c8_actions_order_and_output :
    (∀ (prices : Prices) (l : List RawOrder) (h : Holdings) (c : ℚ) (acts : List String),
        runQueue prices l h c acts =
          ((runQueue prices l h c []).1, (runQueue prices l h c []).2.1,
            acts ++ (runQueue prices l h c []).2.2.1, (runQueue prices l h c []).2.2.2)) ∧
    (∀ (date : String) (holdings : Holdings) (prices : Prices) (cash : ℚ)
        (acts : List String),
        (buildPortfolioData date holdings prices cash acts).actions = acts.head? ∧
        (buildPortfolioData date holdings prices cash acts).claude_decisions_executed =
          !acts.isEmpty) :=
  ⟨fun prices l h c acts => runQueue_acc prices l h c acts,
    fun _ _ _ _ _ => ⟨rfl, rfl⟩⟩
